import Mathlib

/-!
Shallow embedding of the `reqt` REST-client library core, translated from the
Rust sources (`src/error.rs`, `src/query.rs`, `src/pagination.rs`,
`src/filter.rs`, `src/sort.rs`, `src/range.rs`, the derive crates,
`src/request_url.rs`, `src/rate_limiter.rs`, `src/request.rs`), together with
theorems settling the frozen claims about the specification.

Modelling conventions:
* machine integers are `Nat`/`Int`; saturating casts (`as u32`, `as usize`)
  are written out explicitly;
* values parsed from headers with `parse::<f32>()` are modelled as exact
  rationals (`ℚ`), i.e. the model works with the mathematical value the
  header denotes; `none` models a header that is absent or unparsable;
* fallible operations return `Except ApiError`;
* wall-clock timestamps are integers (milliseconds).
-/

namespace Reqt

/-- Error taxonomy from `src/error.rs` (`ApiError`).  Payloads carried by the
Rust variants (source errors, strings) are elided; only the variant identity
matters for the claims. -/
inductive ApiError
  | NotFound
  | Unauthorized
  | TooManyRequests
  | BadRequest
  | InternalServerError
  | PaginationDone
  | PageLimitExceeded
  | JsonValueNotArray
  | ResponseParse
  | ResponseToText
  | ReqwestExecute
  | ReqwestClone
  | ReqwestBuilder
  | BodySerialization
  | WrongUrlFormat
  | InvalidHeaderValue
  deriving DecidableEq, Repr

/-- `impl From<reqwest::StatusCode> for ApiError` in `src/error.rs`. -/
def statusToApiError (status : Nat) : ApiError :=
  if status = 404 then .NotFound
  else if status = 401 then .Unauthorized
  else if status = 429 then .TooManyRequests
  else if status = 500 then .InternalServerError
  else .BadRequest

/-- `Query` from `src/query.rs`: an ordered vector of rendered
`"key=value"` strings. -/
structure Query where
  entries : List String
  deriving DecidableEq, Repr

/-- `Query::new` from `src/query.rs`. -/
def Query.new : Query := ⟨[]⟩

/-- `Query::add` from `src/query.rs`: pushes `format!("{key}={value}")`. -/
def Query.add (q : Query) (key value : String) : Query :=
  ⟨q.entries ++ [key ++ "=" ++ value]⟩

/-- `Query::join` from `src/query.rs`: extends one entry vector with the
other. -/
def Query.join (q p : Query) : Query :=
  ⟨q.entries ++ p.entries⟩

/-- `impl Display for Query` from `src/query.rs`: empty queries render as
`""`; otherwise `"?"` followed by the `&`-joined entries. -/
def Query.display (q : Query) : String :=
  if q.entries.isEmpty then "" else "?" ++ String.intercalate "&" q.entries

/-- `PaginationRule` from `src/pagination.rs`.  The Rust enum has exactly the
two variants `Fixed(usize)` and `OneShot`. -/
inductive PaginationRule
  | Fixed (n : Nat)
  | OneShot
  deriving DecidableEq, Repr

/-- `impl Default for PaginationRule`: `Fixed(1)`. -/
def PaginationRule.default : PaginationRule := .Fixed 1

/-- `RequestPagination` from `src/pagination.rs`. -/
structure RequestPagination where
  size : Nat
  current_page : Nat
  pagination : PaginationRule
  deriving DecidableEq, Repr

/-- `impl Default for RequestPagination`: size 100, page 1, `Fixed(1)`. -/
def RequestPagination.default : RequestPagination :=
  ⟨100, 1, PaginationRule.default⟩

/-- `Pagination::next` for `RequestPagination`: increments the current page. -/
def RequestPagination.next (p : RequestPagination) : RequestPagination :=
  { p with current_page := p.current_page + 1 }

/-- `Pagination::reset` for `RequestPagination`: back to page 1. -/
def RequestPagination.reset (p : RequestPagination) : RequestPagination :=
  { p with current_page := 1 }

/-- `Pagination::get_current_page` for `RequestPagination`: the pagination
query fragment `page[number]=<current>&page[size]=<size>`. -/
def RequestPagination.get_current_page (p : RequestPagination) : Query :=
  (Query.new.add "page[number]" (toString p.current_page)).add
    "page[size]" (toString p.size)

/-- Scanning loop of `stringReplace`, structurally recursive on a fuel bound
by the input length: at each position, a (non-empty) occurrence of the
pattern is replaced and skipped, otherwise one character is copied. -/
def replaceFuel (p r : List Char) : Nat → List Char → List Char
  | 0, s => s
  | _ + 1, [] => []
  | fuel + 1, c :: cs =>
      if p ≠ [] ∧ p.isPrefixOf (c :: cs) then
        r ++ replaceFuel p r fuel ((c :: cs).drop p.length)
      else c :: replaceFuel p r fuel cs

/-- Rust `str::replace`: replace every non-overlapping occurrence of
`pattern` in `s` by `repl`, scanning left to right.  (The derive macros only
ever pass the non-empty literal patterns `"property"`, `"filter"`,
`"order"`, so the empty-pattern corner of `str::replace` is irrelevant.) -/
def stringReplace (s pattern repl : String) : String :=
  ⟨replaceFuel pattern.data repl.data s.data.length s.data⟩

/-- The value-joining loop shared by the derive-generated `filter`,
`filter_with` implementations (`filter-derive/src/lib.rs`): push each value
followed by `','`, then pop the trailing character. -/
def joinValues (values : List String) : String :=
  (values.foldl (fun acc v => acc ++ v ++ ",") "").dropRight 1

/-- `FilterRule` from `src/filter.rs`. -/
structure FilterRule where
  pattern : String
  filters : List (String × String)
  deriving DecidableEq, Repr

/-- `Default` for `FilterRule` (derived in Rust): empty pattern, no
entries. -/
def FilterRule.default : FilterRule := ⟨"", []⟩

/-- Derive-generated `Filter::filter` (`filter-derive/src/lib.rs`):
substitutes the property into the pattern and pushes the new
`(generated_key, joined_values)` pair onto `filters`. -/
def FilterRule.filter (fr : FilterRule) (property : String)
    (value : List String) : FilterRule :=
  { fr with
    filters := fr.filters ++
      [(stringReplace fr.pattern "property" property, joinValues value)] }

/-- Derive-generated `Filter::filter_with` (`filter-derive/src/lib.rs`):
substitutes the property, then the filter name, and pushes the pair. -/
def FilterRule.filter_with (fr : FilterRule) (property filt : String)
    (value : List String) : FilterRule :=
  { fr with
    filters := fr.filters ++
      [(stringReplace (stringReplace fr.pattern "property" property) "filter" filt,
        joinValues value)] }

/-- `SortOrder` from `src/sort.rs`. -/
inductive SortOrder
  | Asc
  | Desc
  deriving DecidableEq, Repr

/-- `impl Display for SortOrder`. -/
def SortOrder.display : SortOrder → String
  | .Asc => "asc"
  | .Desc => "desc"

/-- `SortRule` from `src/sort.rs`. -/
structure SortRule where
  pattern : String
  sorts : List String
  deriving DecidableEq, Repr

/-- `Default` for `SortRule`. -/
def SortRule.default : SortRule := ⟨"", []⟩

/-- Derive-generated `Sort::sort` (`sort-derive/src/lib.rs`): substitutes the
property into the pattern and pushes the result onto `sorts`. -/
def SortRule.sort (sr : SortRule) (property : String) : SortRule :=
  { sr with sorts := sr.sorts ++ [stringReplace sr.pattern "property" property] }

/-- Derive-generated `Sort::sort_with` (`sort-derive/src/lib.rs`). -/
def SortRule.sort_with (sr : SortRule) (property : String)
    (order : SortOrder) : SortRule :=
  { sr with
    sorts := sr.sorts ++
      [stringReplace (stringReplace sr.pattern "property" property) "order" order.display] }

/-- `RangeRule` from `src/range.rs`. -/
structure RangeRule where
  pattern : String
  ranges : List (String × String)
  deriving DecidableEq, Repr

/-- `Default` for `RangeRule`. -/
def RangeRule.default : RangeRule := ⟨"", []⟩

/-- Derive-generated `Range::range` (`range-derive/src/lib.rs`): substitutes
the property into the pattern and pushes `(key, "{min},{max}")`. -/
def RangeRule.range (rr : RangeRule) (property min max : String) : RangeRule :=
  { rr with
    ranges := rr.ranges ++
      [(stringReplace rr.pattern "property" property, min ++ "," ++ max)] }

/-- `impl From<&FilterRule> for Query` in `src/filter.rs`: the default filter
rule contributes an empty query fragment (`Query::new()`); the accumulated
`filters` entries are ignored. -/
def FilterRule.toQuery (_ : FilterRule) : Query := Query.new

/-- `impl From<&SortRule> for Query` in `src/sort.rs`: empty fragment. -/
def SortRule.toQuery (_ : SortRule) : Query := Query.new

/-- `impl From<&RangeRule> for Query` in `src/range.rs`: empty fragment. -/
def RangeRule.toQuery (_ : RangeRule) : Query := Query.new

/-- `RequestUrl` from `src/request_url.rs`.  The HTTP method is carried as a
plain string; it does not participate in URL formation. -/
structure RequestUrl where
  endpoint : String
  route : String
  query : Query
  method : String
  deriving DecidableEq, Repr

/-- The query composed by `RequestUrl::as_url` before rendering: base query,
then the pagination fragment, then the filter, sort and range fragments, in
that order. -/
def RequestUrl.as_url_query (ru : RequestUrl) (pag : RequestPagination)
    (f : FilterRule) (s : SortRule) (r : RangeRule) : Query :=
  (((ru.query.join pag.get_current_page).join f.toQuery).join s.toQuery).join r.toQuery

/-- `RequestUrl::as_url` from `src/request_url.rs`: renders
`format!("{endpoint}{route}{query}")`.  `Url::parse` is modelled as the
identity on this string (its `WrongUrlFormat` failure and percent-encoding
are outside the claims considered here). -/
def RequestUrl.as_url (ru : RequestUrl) (pag : RequestPagination)
    (f : FilterRule) (s : SortRule) (r : RangeRule) : String :=
  ru.endpoint ++ ru.route ++ (ru.as_url_query pag f s r).display

/-- Rust `v as u32` on the exact value of a parsed `f32`: truncation toward
zero with saturation at the `u32` bounds. -/
def f32ToU32 (v : ℚ) : Nat :=
  min (max ⌊v⌋ 0).toNat (2 ^ 32 - 1)

/-- Rust `v.ceil() as usize` on the exact value of an `f32` quotient:
ceiling, then saturating cast to `usize`. -/
def f32CeilToUsize (v : ℚ) : Nat :=
  min (max ⌈v⌉ 0).toNat (2 ^ 64 - 1)

/-- `Request::get_number_of_elements` from `src/request.rs`: the `X-Total`
header parsed as `f32` and cast to `u32`, defaulting to 1 when the header is
absent or unparsable (both modelled by `none`). -/
def get_number_of_elements (xTotal : Option ℚ) : Nat :=
  match xTotal with
  | some v => f32ToU32 v
  | none => 1

/-- `Request::get_page_count` from `src/request.rs`: `ceil(X-Total /
X-Per-Page)` with the per-page header defaulting to 1, then the pagination
rule applied — `Fixed(limit)` clamps with `min`, `OneShot` leaves the count
uncapped.  An absent `X-Total` yields a computed count of 1 before the rule
is applied.  (A zero per-page value makes the Rust `f32` quotient infinite;
that configuration is outside this exact-arithmetic model and is excluded by
hypothesis in the theorems below.) -/
def get_page_count (xTotal xPerPage : Option ℚ) (rule : PaginationRule) : Nat :=
  let page_count :=
    match xTotal with
    | none => 1
    | some total =>
        let per_page := xPerPage.getD 1
        f32CeilToUsize (total / per_page)
  match rule with
  | .Fixed limit => min page_count limit
  | .OneShot => page_count

/-- A dispatched HTTP response, as consumed by the engine: a status code, the
parsed values of the `X-Total` / `X-Per-Page` headers (`none` when absent or
unparsable), and the JSON body.  `body = some items` models a JSON array of
`items`; `body = none` models any non-array JSON document. -/
structure HttpResponse (α : Type) where
  status : Nat
  xTotal : Option ℚ
  xPerPage : Option ℚ
  body : Option (List α)
  deriving DecidableEq, Repr

/-- The success statuses accepted by `execute_reqwest`: 200, 201, 202, 204. -/
def isSuccessStatus (status : Nat) : Bool :=
  status = 200 || status = 201 || status = 202 || status = 204

/-- Number of dispatches performed by the retry loop in `execute_reqwest`
(`while limit > 0 { limit -= 1; dispatch; if status != 429 { break } }`),
where `statuses i` is the status answered to attempt `i` and retries are
attempts `1, 2, …`. -/
def retryDispatchCount (statuses : Nat → Nat) : Nat → Nat → Nat
  | 0, _ => 0
  | limit + 1, attempt =>
      1 + (if statuses attempt ≠ 429 then 0 else retryDispatchCount statuses limit (attempt + 1))

/-- Decidable equality for `Except`, used to evaluate concrete outcomes. -/
def exceptDecEq {ε α : Type} [DecidableEq ε] [DecidableEq α] :
    DecidableEq (Except ε α)
  | .error a, .error b =>
      if h : a = b then .isTrue (h ▸ rfl)
      else .isFalse (fun c => h (Except.error.inj c))
  | .error _, .ok _ => .isFalse Except.noConfusion
  | .ok _, .error _ => .isFalse Except.noConfusion
  | .ok a, .ok b =>
      if h : a = b then .isTrue (h ▸ rfl)
      else .isFalse (fun c => h (Except.ok.inj c))

instance {ε α : Type} [DecidableEq ε] [DecidableEq α] :
    DecidableEq (Except ε α) := exceptDecEq

/-- Observable outcome of `execute_reqwest`: how many times the request was
dispatched, and the result surfaced to the caller. -/
structure ExecOutcome (α : Type) where
  dispatches : Nat
  result : Except ApiError (HttpResponse α)
  deriving DecidableEq, Repr

/-- `Request::execute_reqwest` from `src/request.rs`.  `responses i` is the
response the server answers to attempt `i` of this request.  The first
dispatch is attempt 0.  When it returns 429: with `retries_limit = none` a
`TooManyRequests` error is returned at once; with `some limit` the retry
loop re-dispatches up to `limit` times, stopping early at the first non-429
answer — but each retry response is bound to a shadowed local and dropped,
so the final status check below the loop still reads the *first* response. -/
def execute_reqwest {α : Type} (responses : Nat → HttpResponse α)
    (retries_limit : Option Nat) : ExecOutcome α :=
  let response := responses 0
  if response.status = 429 then
    match retries_limit with
    | none => { dispatches := 1, result := .error .TooManyRequests }
    | some limit =>
        { dispatches := 1 + retryDispatchCount (fun i => (responses i).status) limit 1,
          result :=
            if isSuccessStatus response.status then .ok response
            else .error (statusToApiError response.status) }
  else
    { dispatches := 1,
      result :=
        if isSuccessStatus response.status then .ok response
        else .error (statusToApiError response.status) }

/-- `Request::parse_response::<Vec<Value>>` from `src/request.rs`:
deserializing a JSON array succeeds with its items; any other JSON document
fails with a `ResponseParse` error (the `serde_json` error payload is
elided).  The engine's target type `T` is itself modelled as a JSON array
type, so the single-page `parse_response::<T>` path uses the same
function. -/
def parse_response_vec {α : Type} (body : Option (List α)) :
    Except ApiError (List α) :=
  match body with
  | some items => .ok items
  | none => .error .ResponseParse

/-- The `serde_json::Value` accumulator of `parse_response_array`
(`json_values`): constructed as `Value::Array(..)`; the loop re-checks the
constructor on every iteration and fails with `JsonValueNotArray` otherwise. -/
inductive JsonValue (α : Type)
  | arr (items : List α)
  | nonArray
  deriving DecidableEq, Repr

/-- `serde_json::from_value::<T>` applied to the merged accumulator, with `T`
a JSON-array (Vec) type. -/
def json_deserialize {α : Type} (v : JsonValue α) : Except ApiError (List α) :=
  match v with
  | .arr items => .ok items
  | .nonArray => .error .ResponseParse

/-- Observable outcome of the page loop of `parse_response_array`. -/
structure LoopOutcome (α : Type) where
  result : Except ApiError (JsonValue α)
  pagination : RequestPagination
  dispatches : Nat

/-- The `for _ in 1..page_count` loop of `Request::parse_response_array`
(`src/request.rs`), with `fuel = page_count - 1` remaining iterations.
Each iteration rebuilds the URL from the advanced pagination state (modelled
by requesting `server pag.current_page`), dispatches, appends the parsed
array to the accumulator, and only then advances the pagination state.  The
rate-limiter `update` call after each dispatch does not affect control flow
and is elided. -/
def fetch_pages {α : Type} (server : Nat → HttpResponse α)
    (force_limit : Option Nat) :
    Nat → JsonValue α → RequestPagination → LoopOutcome α
  | 0, acc, pag => { result := .ok acc, pagination := pag, dispatches := 0 }
  | fuel + 1, acc, pag =>
      match (execute_reqwest (fun _ => server pag.current_page) force_limit).result with
      | .error e => { result := .error e, pagination := pag, dispatches := 1 }
      | .ok resp =>
          match acc with
          | .arr a =>
              match parse_response_vec resp.body with
              | .error e => { result := .error e, pagination := pag, dispatches := 1 }
              | .ok items =>
                  let rest := fetch_pages server force_limit fuel (.arr (a ++ items)) pag.next
                  { rest with dispatches := rest.dispatches + 1 }
          | .nonArray => { result := .error .JsonValueNotArray, pagination := pag, dispatches := 1 }

/-- Observable outcome of `Request::send`: the surfaced result, the number of
page dispatches, the final pagination state of the request, and which
deserialization path was taken (`single = true` for the direct
`parse_response::<T>` branch). -/
structure SendOutcome (α : Type) where
  result : Except ApiError (List α)
  dispatches : Nat
  pagination : RequestPagination
  single : Bool

/-- `Request::send` from `src/request.rs`.  `server p` is the response the
server answers for page `p`; the engine requests the page recorded in the
pagination state at dispatch time.  Retries of a throttled dispatch re-issue
the identical request, modelled by the server answering the same response
for every attempt at a page.  The `rate_limiter.request()` /
`rate_limiter.update(..)` calls never alter control flow (lock failures are
only logged) and are elided. -/
def send {α : Type} (server : Nat → HttpResponse α) (pag : RequestPagination)
    (force_limit : Option Nat) : SendOutcome α :=
  match (execute_reqwest (fun _ => server pag.current_page) force_limit).result with
  | .error e =>
      { result := .error e, dispatches := 1, pagination := pag, single := false }
  | .ok first =>
      if get_number_of_elements first.xTotal = 1 then
        { result := parse_response_vec first.body, dispatches := 1,
          pagination := pag, single := true }
      else
        let page_count := get_page_count first.xTotal first.xPerPage pag.pagination
        let pag1 := pag.next
        match parse_response_vec first.body with
        | .error e =>
            { result := .error e, dispatches := 1, pagination := pag1, single := false }
        | .ok items0 =>
            let loop := fetch_pages server force_limit (page_count - 1) (.arr items0) pag1
            { result :=
                match loop.result with
                | .error e => .error e
                | .ok v => json_deserialize v,
              dispatches := loop.dispatches + 1,
              pagination := loop.pagination,
              single := false }

/-- `TimePeriod` from `src/rate_limiter.rs`, in its `EnumIter` declaration
order (Second, Minute, Hour, Day). -/
inductive TimePeriod
  | Second
  | Minute
  | Hour
  | Day
  deriving DecidableEq, Repr

/-- `impl Display for TimePeriod`. -/
def TimePeriod.display : TimePeriod → String
  | .Second => "secondly"
  | .Minute => "minute"
  | .Hour => "hourly"
  | .Day => "dayly"

/-- `TimePeriod::iter()` order used by `RateLimiter::update`. -/
def timePeriodOrder : List TimePeriod :=
  [.Second, .Minute, .Hour, .Day]

/-- The duration of a period, from `impl From<TimePeriod> for TimeDelta`,
expressed in the model's time unit (milliseconds). -/
def TimePeriod.durationMs : TimePeriod → ℤ
  | .Second => 1000
  | .Minute => 60000
  | .Hour => 3600000
  | .Day => 86400000

/-- `RateLimiter` from `src/rate_limiter.rs`.  The `timer` timestamp is an
integer count of milliseconds. -/
structure RateLimiter where
  limit : Nat
  remaining : Nat
  period : TimePeriod
  is_asleep : Bool
  is_adaptive : Bool
  timer : ℤ
  deriving DecidableEq, Repr

/-- The header key scanned by `RateLimiter::update`:
`format!("x-{}-ratelimit-limit", period)`. -/
def ratelimitHeaderKey (p : TimePeriod) : String :=
  "x-" ++ p.display ++ "-ratelimit-limit"

/-- `HeaderMap::get` on the model's association-list header map (headers are
stored with lowercase keys, as `reqwest` does). -/
def headerGet (headers : List (String × String)) (key : String) : Option String :=
  (headers.find? (fun kv => kv.1 == key)).map (fun kv => kv.2)

/-- Rust `str::parse::<u32>()`: an optional leading `+`, then one or more
digits, rejecting values outside `u32`. -/
def parseU32 (s : String) : Option Nat :=
  let cs := if s.data.head? = some '+' then s.data.drop 1 else s.data
  if cs.isEmpty || !cs.all Char.isDigit then none
  else
    let v := cs.foldl (fun acc c => acc * 10 + (c.toNat - 48)) 0
    if v < 2 ^ 32 then some v else none

/-- The per-period body of `RateLimiter::update` once a header for period `p`
parsed to `limit`: if the period matches and the new limit is strictly lower,
only the limit is updated; otherwise the period is switched unconditionally
and the limit is lowered only when strictly smaller. -/
def RateLimiter.updateAtPeriod (rl : RateLimiter) (p : TimePeriod)
    (limit : Nat) : RateLimiter :=
  if rl.period = p ∧ limit < rl.limit then { rl with limit := limit }
  else
    let rl1 := { rl with period := p }
    if limit < rl1.limit then { rl1 with limit := limit } else rl1

/-- The `for period in TimePeriod::iter()` loop of `RateLimiter::update`:
the first period whose header is present is processed and the function
returns; an unparsable header value also returns, changing nothing. -/
def RateLimiter.updateGo (rl : RateLimiter)
    (headers : List (String × String)) : List TimePeriod → RateLimiter
  | [] => rl
  | p :: rest =>
      match headerGet headers (ratelimitHeaderKey p) with
      | none => rl.updateGo headers rest
      | some s =>
          match parseU32 s with
          | none => rl
          | some limit => rl.updateAtPeriod p limit

/-- `RateLimiter::update` from `src/rate_limiter.rs`: a no-op unless the
limiter is adaptive. -/
def RateLimiter.update (rl : RateLimiter)
    (headers : List (String × String)) : RateLimiter :=
  if rl.is_adaptive then rl.updateGo headers timePeriodOrder else rl

/-- Reformulation of the adaptive update used as the amended specification:
scan the periods in priority order (Second, Minute, Hour, Day) and act only
on the first one whose header is present — an unparsable value changes
nothing; otherwise the limiter's period switches to that header's period
unconditionally, and its limit is lowered to the header's value exactly when
that value is strictly smaller.  Headers of the remaining periods are
ignored. -/
def RateLimiter.updateSpec (rl : RateLimiter)
    (headers : List (String × String)) : RateLimiter :=
  if rl.is_adaptive then
    match timePeriodOrder.findSome?
        (fun p => (headerGet headers (ratelimitHeaderKey p)).map (fun s => (p, s))) with
    | none => rl
    | some (p, s) =>
        match parseU32 s with
        | none => rl
        | some l =>
            { rl with period := p, limit := if l < rl.limit then l else rl.limit }
  else rl

/-- One completed pass of the polling loop in `RateLimiter::request`
(`src/rate_limiter.rs`) at wall-clock time `now`: when a full period has
elapsed since `timer`, the window is reset (`timer = now`,
`remaining = limit`); the acquisition then succeeds exactly when a unit of
budget remains, consuming it.  `none` means the caller cannot complete at
this instant (the thread sleeps and retries later, i.e. at a larger
`now`). -/
def rl_acquire (rl : RateLimiter) (now : ℤ) : Option RateLimiter :=
  let rl1 :=
    if rl.period.durationMs ≤ now - rl.timer then
      { rl with timer := now, remaining := rl.limit }
    else rl
  if 0 < rl1.remaining then some { rl1 with remaining := rl1.remaining - 1 }
  else none

/-- A trace of acquisition completions: fold `rl_acquire` over the completion
timestamps.  `some rl'` means every acquisition in the list completed at its
recorded time. -/
def rl_run (rl : RateLimiter) : List ℤ → Option RateLimiter
  | [] => some rl
  | t :: ts =>
      match rl_acquire rl t with
      | some rl1 => rl_run rl1 ts
      | none => none

/-! ## Helper lemmas -/

/-- The result surfaced by `execute_reqwest` depends only on the *first*
response: the retried responses are dropped by the shadowed binding, and the
final status check re-reads attempt 0. -/
theorem execute_reqwest_result {α : Type} (responses : Nat → HttpResponse α)
    (rlim : Option Nat) :
    (execute_reqwest responses rlim).result =
      if isSuccessStatus (responses 0).status then .ok (responses 0)
      else .error (statusToApiError (responses 0).status) := by
  unfold execute_reqwest
  by_cases h : (responses 0).status = 429
  · cases rlim <;> simp [h, isSuccessStatus, statusToApiError]
  · simp [h]

/-- `updateAtPeriod` is the same as switching the period unconditionally and
lowering the limit exactly when the header value is strictly smaller. -/
theorem updateAtPeriod_eq (rl : RateLimiter) (p : TimePeriod) (l : Nat) :
    rl.updateAtPeriod p l =
      { rl with period := p, limit := if l < rl.limit then l else rl.limit } := by
  unfold RateLimiter.updateAtPeriod
  by_cases h : rl.period = p ∧ l < rl.limit
  · obtain ⟨h1, h2⟩ := h
    simp [h1, h2]
  · by_cases hl : l < rl.limit <;> simp [h, hl]

/-- The scan loop of `update` processes exactly the first period in the list
whose header is present. -/
theorem updateGo_eq_findSome (rl : RateLimiter)
    (headers : List (String × String)) (ps : List TimePeriod) :
    rl.updateGo headers ps =
      match ps.findSome?
          (fun p => (headerGet headers (ratelimitHeaderKey p)).map (fun s => (p, s))) with
      | none => rl
      | some (p, s) =>
          match parseU32 s with
          | none => rl
          | some l =>
              { rl with period := p, limit := if l < rl.limit then l else rl.limit } := by
  induction ps with
  | nil => rfl
  | cons p rest ih =>
      simp only [RateLimiter.updateGo, List.findSome?]
      cases hget : headerGet headers (ratelimitHeaderKey p) with
      | none => simpa [hget] using ih
      | some s =>
          cases hp : parseU32 s with
          | none => simp [hget, hp]
          | some l => simp [hget, hp, updateAtPeriod_eq]

/-! ## C1 -/

/-- C1: evaluated at a request whose first dispatch returns 429 with retry
budget `Some 1` and whose retry returns 200, `execute_reqwest` does perform
the retry (2 dispatches in total) but surfaces `TooManyRequests` anyway: the
retry loop binds each retried response to a shadowed local and drops it, so
the final status check re-reads the first (throttled) response instead of
proceeding with the successful retry, contradicting the claim (and the
spec's stated retry semantics). -/
theorem execute_reqwest_discards_successful_retry :
    execute_reqwest (α := Unit)
        (fun i => if i = 0 then ⟨429, none, none, none⟩ else ⟨200, none, none, none⟩)
        (some 1)
      = { dispatches := 2, result := .error .TooManyRequests } := by
  rfl

/-! ## C2 -/

/-- C2 counterexample: for the default `FilterRule`, an entry added with
`filter` is recorded in the rule's `filters` collection but does *not*
appear in the URL produced by `as_url` — the `From<&FilterRule> for Query`
impl returns an empty fragment — refuting the claim that such entries appear
as `key=value` pairs in the final URL's query string. -/
theorem as_url_omits_added_filter_entries :
    ((FilterRule.mk "property" []).filter "campus" ["31"]).filters = [("campus", "31")] ∧
    "campus=31" ∉ (RequestUrl.as_url_query ⟨"https://api.test", "/users", Query.new, "GET"⟩
        RequestPagination.default ((FilterRule.mk "property" []).filter "campus" ["31"])
        SortRule.default RangeRule.default).entries ∧
    RequestUrl.as_url ⟨"https://api.test", "/users", Query.new, "GET"⟩
        RequestPagination.default ((FilterRule.mk "property" []).filter "campus" ["31"])
        SortRule.default RangeRule.default
      = "https://api.test/users?page[number]=1&page[size]=100" := by
  refine ⟨rfl, by decide, rfl⟩

/-- C2 amended: `as_url` composes the base query and the pagination fragment
into the final URL, and the fragments contributed by the filter, sort and
range strategies are those of the `From<&_> for Query` impls — which, for
the default `FilterRule`/`SortRule`/`RangeRule`, are empty, so entries added
via `filter`/`filter_with`/`sort`/`sort_with`/`range` do not appear in the
URL. -/
theorem as_url_composition (ru : RequestUrl) (pag : RequestPagination)
    (f : FilterRule) (s : SortRule) (r : RangeRule) :
    (ru.as_url_query pag f s r).entries
        = ru.query.entries ++ pag.get_current_page.entries ∧
    ru.as_url pag f s r
        = ru.endpoint ++ ru.route ++ (ru.query.join pag.get_current_page).display := by
  constructor
  · simp [RequestUrl.as_url_query, Query.join, FilterRule.toQuery,
      SortRule.toQuery, RangeRule.toQuery, Query.new]
  · simp [RequestUrl.as_url, RequestUrl.as_url_query, Query.join,
      FilterRule.toQuery, SortRule.toQuery, RangeRule.toQuery, Query.new]

/-! ## C3 -/

/-- C3 counterexample: with both `x-minute-ratelimit-limit: 5` and
`x-hourly-ratelimit-limit: 3` present, the adaptive update adopts 5 — the
first period scanned in (Second, Minute, Hour, Day) order — not the lowest
value 3; and a minute header of 100 against a current limit of 5 still
switches the period to Minute although 100 is not strictly lower. -/
theorem update_first_match_not_lowest :
    (RateLimiter.update ⟨10, 10, .Second, false, true, 0⟩
        [("x-minute-ratelimit-limit", "5"), ("x-hourly-ratelimit-limit", "3")]).limit = 5 ∧
    (RateLimiter.update ⟨10, 10, .Second, false, true, 0⟩
        [("x-minute-ratelimit-limit", "5"), ("x-hourly-ratelimit-limit", "3")]).limit ≠ 3 ∧
    (RateLimiter.update ⟨5, 5, .Second, false, true, 0⟩
        [("x-minute-ratelimit-limit", "100")]).period = .Minute := by
  refine ⟨rfl, by decide, rfl⟩

/-- C3 amended: an adaptive `update` acts only on the *first* period in
priority order (Second, Minute, Hour, Day) whose
`x-<period>-ratelimit-limit` header is present: an unparsable value changes
nothing; otherwise the limiter's period switches to that header's period
unconditionally and the limit is lowered exactly when the header's value is
strictly smaller; all later headers are ignored.  A non-adaptive limiter is
never changed. -/
theorem update_eq_updateSpec (rl : RateLimiter)
    (headers : List (String × String)) :
    rl.update headers = rl.updateSpec headers := by
  unfold RateLimiter.update RateLimiter.updateSpec
  by_cases ha : rl.is_adaptive = true
  · rw [if_pos ha, if_pos ha]
    exact updateGo_eq_findSome rl headers timePeriodOrder
  · rw [if_neg ha, if_neg ha]

/-! ## C4 -/

/-- C4 counterexample: `PaginationRule` has no third alternative — there is
no rule distinct from every `Fixed n` and from `OneShot`, so the claimed
`None` variant does not exist. -/
theorem paginationRule_has_no_none_variant :
    ¬ ∃ r : PaginationRule,
        (∀ n, r ≠ PaginationRule.Fixed n) ∧ r ≠ PaginationRule.OneShot := by
  rintro ⟨r, hfix, hone⟩
  cases r with
  | Fixed n => exact hfix n rfl
  | OneShot => exact hone rfl

/-- C4 amended: `PaginationRule` is a closed variant with exactly the two
alternatives `Fixed n` and `OneShot`; the role of the claimed `None` rule is
played by the default `Fixed 1`, under which `send` dispatches exactly one
page for every value of the `X-Total` header (and indeed for every server
behavior). -/
theorem paginationRule_closed_two_variants_single_page :
    (∀ r : PaginationRule,
        (∃ n, r = PaginationRule.Fixed n) ∨ r = PaginationRule.OneShot) ∧
    (∀ (α : Type) (server : Nat → HttpResponse α) (pag : RequestPagination)
        (force_limit : Option Nat), pag.pagination = PaginationRule.Fixed 1 →
        (send server pag force_limit).dispatches = 1) := by
  constructor
  · intro r
    cases r with
    | Fixed n => exact .inl ⟨n, rfl⟩
    | OneShot => exact .inr rfl
  · intro α server pag fl hrule
    have hle : ∀ (xt xp : Option ℚ),
        get_page_count xt xp (PaginationRule.Fixed 1) ≤ 1 := by
      intro xt xp
      exact min_le_right _ _
    have hpc : get_page_count ((server pag.current_page).xTotal)
        ((server pag.current_page).xPerPage) pag.pagination - 1 = 0 := by
      rw [hrule]
      have := hle ((server pag.current_page).xTotal) ((server pag.current_page).xPerPage)
      omega
    unfold send
    rw [execute_reqwest_result]
    by_cases hs : isSuccessStatus ((server pag.current_page).status)
    · rw [if_pos hs]
      by_cases h1 : get_number_of_elements ((server pag.current_page).xTotal) = 1
      · simp [h1]
      · simp only [h1, if_false]
        cases hp : parse_response_vec ((server pag.current_page).body) with
        | error e => rfl
        | ok items0 =>
            simp [hp, hpc, fetch_pages]
    · rw [if_neg hs]

/-- Witness for the C4 amended theorem at a concrete server and the default
`Fixed 1` rule. -/
theorem paginationRule_closed_two_variants_single_page_witness :
    (send (α := Nat) (fun _ => ⟨200, some 0, none, some []⟩)
        ⟨100, 1, PaginationRule.Fixed 1⟩ none).dispatches = 1 :=
  paginationRule_closed_two_variants_single_page.2 Nat
    (fun _ => ⟨200, some 0, none, some []⟩) ⟨100, 1, PaginationRule.Fixed 1⟩ none rfl

/-! ## C5 -/

/-- C5 counterexample: with the `X-Total` header absent and the rule
`Fixed 0`, `get_page_count` returns `min 1 0 = 0`, not 1 — the rule clamp is
applied even to the absent-header default, refuting "returns 1 regardless of
the rule". -/
theorem get_page_count_absent_total_fixed_zero :
    get_page_count none none (PaginationRule.Fixed 0) = 0 ∧
    get_page_count none none (PaginationRule.Fixed 0) ≠ 1 := by
  exact ⟨rfl, by decide⟩

/-- C5 amended: for a present total `t ≥ 0` and per-page value `p > 0`
(defaulting to 1 when the header is absent), `get_page_count` is
`⌈t / p⌉` clamped to `min _ n` under `Fixed n` and uncapped under `OneShot`;
when the total header is absent the computed count is 1 and the rule clamp
still applies, giving `min 1 n` under `Fixed n` (so 0 for `Fixed 0`) and 1
under `OneShot`. -/
theorem get_page_count_spec (total per : ℚ) (perOpt : Option ℚ) (n : Nat)
    (hper : perOpt.getD 1 = per) (hpos : 0 < per) (ht : 0 ≤ total)
    (hcap : (⌈total / per⌉).toNat ≤ 2 ^ 64 - 1) :
    get_page_count (some total) perOpt (PaginationRule.Fixed n)
        = min (⌈total / per⌉).toNat n ∧
    get_page_count (some total) perOpt PaginationRule.OneShot
        = (⌈total / per⌉).toNat ∧
    get_page_count none perOpt (PaginationRule.Fixed n) = min 1 n ∧
    get_page_count none perOpt PaginationRule.OneShot = 1 := by
  have hq : 0 ≤ total / per := div_nonneg ht (le_of_lt hpos)
  have hceil : (0 : ℤ) ≤ ⌈total / per⌉ := Int.ceil_nonneg hq
  have hfc : f32CeilToUsize (total / per) = (⌈total / per⌉).toNat := by
    unfold f32CeilToUsize
    rw [max_eq_left hceil]
    exact min_eq_left hcap
  refine ⟨?_, ?_, ?_, ?_⟩ <;> simp [get_page_count, hper, hfc]

/-- Witness for the C5 amended theorem: total 5, per-page 2, rule `Fixed 2`
— `⌈5/2⌉ = 3` computed pages, clamped to 2. -/
theorem get_page_count_spec_witness :
    get_page_count (some 5) (some 2) (PaginationRule.Fixed 2)
        = min (⌈(5 : ℚ) / 2⌉).toNat 2 ∧
    get_page_count (some 5) (some 2) PaginationRule.OneShot
        = (⌈(5 : ℚ) / 2⌉).toNat ∧
    get_page_count none (some 2) (PaginationRule.Fixed 2) = min 1 2 ∧
    get_page_count none (some 2) PaginationRule.OneShot = 1 := by
  have hceil : ⌈(5 : ℚ) / 2⌉ = 3 := by
    rw [Int.ceil_eq_iff]
    norm_num
  exact get_page_count_spec 5 2 (some 2) 2 rfl (by norm_num) (by norm_num)
    (by rw [hceil]; norm_num)

/-! ## C8 -/

/-- C8 counterexample: a second `filter` call on the same property pushes a
second entry with the identical generated key — the collection holds two
entries sharing the key `campus`, refuting the replace-in-place claim;
`sort` and `range` behave the same way. -/
theorem second_call_same_key_duplicates :
    (((FilterRule.mk "property" []).filter "campus" ["31"]).filter "campus" ["35"]).filters
        = [("campus", "31"), ("campus", "35")] ∧
    ¬ List.Pairwise (fun a b : String × String => a.1 ≠ b.1)
        ((((FilterRule.mk "property" []).filter "campus" ["31"]).filter
            "campus" ["35"]).filters) ∧
    (((SortRule.mk "property" []).sort "name").sort "name").sorts = ["name", "name"] ∧
    (((RangeRule.mk "property" []).range "age" "1" "9").range "age" "2" "8").ranges
        = [("age", "1,9"), ("age", "2,8")] := by
  refine ⟨rfl, by decide, rfl, rfl⟩

/-- C8 amended: every `filter`/`filter_with`/`sort`/`sort_with`/`range` call
appends exactly one `(generated key, value)` entry at the end of the
collection and leaves all prior entries untouched; consequently a repeated
call whose generated key equals an existing entry's key yields two entries
with that key — entries are never replaced in place. -/
theorem rule_calls_append_never_replace :
    (∀ (fr : FilterRule) (p : String) (v : List String),
        (fr.filter p v).filters
          = fr.filters ++ [(stringReplace fr.pattern "property" p, joinValues v)]) ∧
    (∀ (fr : FilterRule) (p f : String) (v : List String),
        (fr.filter_with p f v).filters
          = fr.filters ++
              [(stringReplace (stringReplace fr.pattern "property" p) "filter" f,
                joinValues v)]) ∧
    (∀ (sr : SortRule) (p : String),
        (sr.sort p).sorts = sr.sorts ++ [stringReplace sr.pattern "property" p]) ∧
    (∀ (sr : SortRule) (p : String) (o : SortOrder),
        (sr.sort_with p o).sorts
          = sr.sorts ++
              [stringReplace (stringReplace sr.pattern "property" p) "order" o.display]) ∧
    (∀ (rr : RangeRule) (p mn mx : String),
        (rr.range p mn mx).ranges
          = rr.ranges ++ [(stringReplace rr.pattern "property" p, mn ++ "," ++ mx)]) ∧
    (∀ (fr : FilterRule) (p : String) (v w : List String),
        ((fr.filter p v).filter p w).filters
          = fr.filters ++
              [(stringReplace fr.pattern "property" p, joinValues v),
               (stringReplace fr.pattern "property" p, joinValues w)]) := by
  refine ⟨fun _ _ _ => rfl, fun _ _ _ _ => rfl, fun _ _ => rfl,
    fun _ _ _ => rfl, fun _ _ _ _ => rfl, fun fr p v w => ?_⟩
  simp [FilterRule.filter]

/-! ## C7 -/

/-- The HTTP-status error mapping never produces `JsonValueNotArray`. -/
theorem statusToApiError_ne_jvna (s : Nat) :
    statusToApiError s ≠ ApiError.JsonValueNotArray := by
  unfold statusToApiError
  repeat' split
  all_goals simp

/-- Started on an array accumulator, the page loop can never surface
`JsonValueNotArray`: the accumulator stays an array, so the guarding match
arm is dead code. -/
theorem fetch_pages_no_jvna {α : Type} (server : Nat → HttpResponse α)
    (fl : Option Nat) :
    ∀ (fuel : Nat) (a : List α) (pag : RequestPagination),
      (fetch_pages server fl fuel (.arr a) pag).result
        ≠ .error ApiError.JsonValueNotArray := by
  intro fuel
  induction fuel with
  | zero =>
      intro a pag
      simp [fetch_pages]
  | succ n ih =>
      intro a pag
      unfold fetch_pages
      rw [execute_reqwest_result]
      by_cases hs : isSuccessStatus ((server pag.current_page).status)
      · rw [if_pos hs]
        dsimp only
        cases hb : (server pag.current_page).body with
        | none => simp [hb, parse_response_vec]
        | some items =>
            dsimp only [parse_response_vec]
            exact ih (a ++ items) pag.next
      · rw [if_neg hs]
        simp only [ne_eq, Except.error.injEq]
        intro h
        exact statusToApiError_ne_jvna _ h

/-- Evaluation of `send` on the multi-page path: once the first dispatch
succeeded, the `X-Total` count is not 1, and the first body parsed as an
array, `send` is the first page's items followed by the page loop. -/
theorem send_array_path {α : Type} (server : Nat → HttpResponse α)
    (pag : RequestPagination) (fl : Option Nat) (first : HttpResponse α)
    (items0 : List α)
    (hfirst : server pag.current_page = first)
    (hs : isSuccessStatus first.status = true)
    (h1 : get_number_of_elements first.xTotal ≠ 1)
    (hb : first.body = some items0) :
    send server pag fl =
      { result :=
          match (fetch_pages server fl
              (get_page_count first.xTotal first.xPerPage pag.pagination - 1)
              (.arr items0) pag.next).result with
          | .error e => .error e
          | .ok v => json_deserialize v,
        dispatches := (fetch_pages server fl
            (get_page_count first.xTotal first.xPerPage pag.pagination - 1)
            (.arr items0) pag.next).dispatches + 1,
        pagination := (fetch_pages server fl
            (get_page_count first.xTotal first.xPerPage pag.pagination - 1)
            (.arr items0) pag.next).pagination,
        single := false } := by
  unfold send
  rw [execute_reqwest_result, hfirst, if_pos hs]
  dsimp only
  rw [if_neg h1, hb]
  dsimp only [parse_response_vec]

/-- C7 counterexample: a concrete two-page fetch whose second page body is a
JSON object: the engine surfaces `ResponseParse` (the body fails to
deserialize as `Vec<Value>`), not the claimed `ResponseNotArray`
(`JsonValueNotArray`) kind. -/
theorem send_nonarray_midpage_error_kind :
    (send (α := Nat)
        (fun p => if p = 1 then ⟨200, some 2, some 1, some [0]⟩
          else ⟨200, none, none, none⟩)
        ⟨1, 1, PaginationRule.Fixed 2⟩ none).result = .error .ResponseParse ∧
    (send (α := Nat)
        (fun p => if p = 1 then ⟨200, some 2, some 1, some [0]⟩
          else ⟨200, none, none, none⟩)
        ⟨1, 1, PaginationRule.Fixed 2⟩ none).result
      ≠ .error .JsonValueNotArray := by
  have hpc : get_page_count (some 2) (some 1) (PaginationRule.Fixed 2) = 2 := by
    show min (f32CeilToUsize ((2 : ℚ) / 1)) 2 = 2
    rw [show ((2 : ℚ) / 1) = 2 from by norm_num]
    decide
  have hmain : (send (α := Nat)
      (fun p => if p = 1 then ⟨200, some 2, some 1, some [0]⟩
        else ⟨200, none, none, none⟩)
      ⟨1, 1, PaginationRule.Fixed 2⟩ none).result = .error .ResponseParse := by
    rw [send_array_path
      (fun p => if p = 1 then ⟨200, some 2, some 1, some [0]⟩
        else ⟨200, none, none, none⟩)
      ⟨1, 1, PaginationRule.Fixed 2⟩ none ⟨200, some 2, some 1, some [0]⟩ [0]
      rfl rfl (by decide) rfl]
    simp only [hpc]
    rfl
  refine ⟨hmain, ?_⟩
  rw [hmain]
  simp

/-- If the `k`-th page handled by the loop (0-based, so `k < fuel`) is the
first whose body is not a JSON array — every earlier loop page dispatching
successfully with an array body — the loop surfaces `ResponseParse`. -/
theorem fetch_pages_nonarray {α : Type} (server : Nat → HttpResponse α)
    (fl : Option Nat) :
    ∀ (k fuel : Nat) (a : List α) (pag : RequestPagination),
      k < fuel →
      (∀ q, q < k →
        isSuccessStatus ((server (pag.current_page + q)).status) = true ∧
        ∃ l, (server (pag.current_page + q)).body = some l) →
      isSuccessStatus ((server (pag.current_page + k)).status) = true →
      (server (pag.current_page + k)).body = none →
      (fetch_pages server fl fuel (.arr a) pag).result
        = .error ApiError.ResponseParse := by
  intro k
  induction k with
  | zero =>
      intro fuel a pag hlt hmid hsk hbk
      obtain ⟨m, rfl⟩ : ∃ m, fuel = m + 1 := ⟨fuel - 1, by omega⟩
      rw [Nat.add_zero] at hsk hbk
      unfold fetch_pages
      rw [execute_reqwest_result, if_pos hsk]
      dsimp only
      rw [hbk]
      dsimp only [parse_response_vec]
  | succ n ih =>
      intro fuel a pag hlt hmid hsk hbk
      obtain ⟨m, rfl⟩ : ∃ m, fuel = m + 1 := ⟨fuel - 1, by omega⟩
      obtain ⟨hs0, l, hb0⟩ := hmid 0 (Nat.succ_pos n)
      rw [Nat.add_zero] at hs0 hb0
      unfold fetch_pages
      rw [execute_reqwest_result, if_pos hs0]
      dsimp only
      rw [hb0]
      dsimp only [parse_response_vec]
      have harith : ∀ q, pag.next.current_page + q = pag.current_page + (q + 1) := by
        intro q
        show pag.current_page + 1 + q = pag.current_page + (q + 1)
        omega
      apply ih m (a ++ l) pag.next (by omega)
      · intro q hq
        rw [harith q]
        exact hmid (q + 1) (by omega)
      · rw [harith n]
        exact hsk
      · rw [harith n]
        exact hbk

/-- C7 amended: a multi-page fetch in which a page after the first has a
non-array JSON body surfaces a `ResponseParse` error — the per-page
deserialization as `Vec<Value>` fails — and, being an error, carries no
items at all; the `JsonValueNotArray` kind is unreachable in `send` (its
guard inspects the accumulator, which is always an array).  The failing
page may be *any* page after the first: `k ≥ 1` is its offset from the
first page, and every page strictly between dispatches successfully with
an array body. -/
theorem send_nonarray_midpage_surfaces_response_parse :
    (∀ (α : Type) (server : Nat → HttpResponse α) (pag : RequestPagination)
        (fl : Option Nat),
        (send server pag fl).result ≠ .error ApiError.JsonValueNotArray) ∧
    (∀ (α : Type) (server : Nat → HttpResponse α) (pag : RequestPagination)
        (fl : Option Nat) (k : Nat),
        isSuccessStatus ((server pag.current_page).status) = true →
        get_number_of_elements ((server pag.current_page).xTotal) ≠ 1 →
        (∃ l0, (server pag.current_page).body = some l0) →
        1 ≤ k →
        k ≤ get_page_count ((server pag.current_page).xTotal)
            ((server pag.current_page).xPerPage) pag.pagination - 1 →
        (∀ q, 1 ≤ q → q < k →
          isSuccessStatus ((server (pag.current_page + q)).status) = true ∧
          ∃ l, (server (pag.current_page + q)).body = some l) →
        isSuccessStatus ((server (pag.current_page + k)).status) = true →
        (server (pag.current_page + k)).body = none →
        (send server pag fl).result = .error ApiError.ResponseParse) := by
  constructor
  · intro α server pag fl
    unfold send
    rw [execute_reqwest_result]
    by_cases hs : isSuccessStatus ((server pag.current_page).status)
    · rw [if_pos hs]
      by_cases h1 : get_number_of_elements ((server pag.current_page).xTotal) = 1
      · simp only [h1, if_true]
        cases hb : (server pag.current_page).body
        all_goals simp [parse_response_vec]
      · simp only [h1, if_false]
        cases hb : parse_response_vec ((server pag.current_page).body) with
        | error e =>
            simp only []
            cases hbb : (server pag.current_page).body
            all_goals simp [parse_response_vec, hbb] at hb
            all_goals simp [← hb]
        | ok items0 =>
            simp only []
            cases hloop : (fetch_pages server fl
                (get_page_count ((server pag.current_page).xTotal)
                  ((server pag.current_page).xPerPage) pag.pagination - 1)
                (.arr items0) pag.next).result with
            | error e =>
                have := fetch_pages_no_jvna server fl
                  (get_page_count ((server pag.current_page).xTotal)
                    ((server pag.current_page).xPerPage) pag.pagination - 1)
                  items0 pag.next
                rw [hloop] at this
                simp only [ne_eq, Except.error.injEq] at this
                simpa using this
            | ok v =>
                cases v <;> simp [json_deserialize]
    · rw [if_neg hs]
      simp only [ne_eq, Except.error.injEq]
      intro h
      exact statusToApiError_ne_jvna _ h
  · intro α server pag fl k hs h1 ⟨l0, hb0⟩ hk1 hkpc hmid hsk hbk
    rw [send_array_path server pag fl (server pag.current_page) l0 rfl hs h1 hb0]
    dsimp only
    have harith : ∀ q, pag.next.current_page + q = pag.current_page + (q + 1) := by
      intro q
      show pag.current_page + 1 + q = pag.current_page + (q + 1)
      omega
    have hloop := fetch_pages_nonarray server fl (k - 1)
      (get_page_count ((server pag.current_page).xTotal)
        ((server pag.current_page).xPerPage) pag.pagination - 1)
      l0 pag.next (by omega)
      (by
        intro q hq
        rw [harith q]
        exact hmid (q + 1) (by omega) (by omega))
      (by
        rw [harith (k - 1)]
        have hk : k - 1 + 1 = k := by omega
        rw [hk]
        exact hsk)
      (by
        rw [harith (k - 1)]
        have hk : k - 1 + 1 = k := by omega
        rw [hk]
        exact hbk)
    rw [hloop]

/-- Witness for the C7 amended theorem at the concrete two-page server of
the counterexample. -/
theorem send_nonarray_midpage_surfaces_response_parse_witness :
    (send (α := Nat)
        (fun p => if p = 1 then ⟨200, some 2, some 1, some [0]⟩
          else ⟨200, none, none, none⟩)
        ⟨1, 1, PaginationRule.Fixed 2⟩ none).result
      = .error ApiError.ResponseParse :=
  send_nonarray_midpage_surfaces_response_parse.2 Nat
    (fun p => if p = 1 then ⟨200, some 2, some 1, some [0]⟩
      else ⟨200, none, none, none⟩)
    ⟨1, 1, PaginationRule.Fixed 2⟩ none 1 rfl (by decide)
    ⟨[0], rfl⟩ (by decide)
    (by
      show (1 : Nat) ≤ min (f32CeilToUsize ((2 : ℚ) / 1)) 2 - 1
      rw [show ((2 : ℚ) / 1) = 2 from by norm_num]
      decide)
    (fun q hq1 hq2 => absurd hq2 (by omega))
    rfl rfl

/-! ## C10 -/

/-- The `u32` cast of a parsed total equals 1 exactly when the value's floor
(truncation, for the relevant non-negative range) is 1. -/
theorem f32ToU32_eq_one (v : ℚ) : f32ToU32 v = 1 ↔ ⌊v⌋ = 1 := by
  unfold f32ToU32
  omega

/-- C10: given a successful first dispatch, `send` takes the single-value
deserialization path — direct parse of the body as the target type, no
pagination advance, one dispatch — if and only if the `X-Total` header is
absent/unparsable (`none`) or parses to a value truncating to 1; every other
value, 0 included, goes down the multi-page array path, where a non-array
first body fails with `ResponseParse`. -/
theorem send_single_path_iff (α : Type) (server : Nat → HttpResponse α)
    (pag : RequestPagination) (fl : Option Nat)
    (hs : isSuccessStatus ((server pag.current_page).status) = true) :
    ((send server pag fl).single = true ↔
      ((server pag.current_page).xTotal = none ∨
        ∃ v, (server pag.current_page).xTotal = some v ∧ ⌊v⌋ = 1)) ∧
    ((send server pag fl).single = true →
      (send server pag fl).pagination = pag ∧
      (send server pag fl).result = parse_response_vec ((server pag.current_page).body) ∧
      (send server pag fl).dispatches = 1) ∧
    ((send server pag fl).single = false →
      ((server pag.current_page).body = none →
        (send server pag fl).result = .error ApiError.ResponseParse)) := by
  have hiff : get_number_of_elements ((server pag.current_page).xTotal) = 1 ↔
      ((server pag.current_page).xTotal = none ∨
        ∃ v, (server pag.current_page).xTotal = some v ∧ ⌊v⌋ = 1) := by
    cases hx : (server pag.current_page).xTotal with
    | none => simp [get_number_of_elements]
    | some v => simp [get_number_of_elements, f32ToU32_eq_one]
  unfold send
  rw [execute_reqwest_result, if_pos hs]
  by_cases h1 : get_number_of_elements ((server pag.current_page).xTotal) = 1
  · simp only [h1, if_true]
    refine ⟨by simpa using hiff.mp h1, fun _ => by simp, by simp⟩
  · simp only [h1, if_false]
    have hnot := (not_congr hiff).mp h1
    cases hb : parse_response_vec ((server pag.current_page).body) with
    | error e =>
        refine ⟨by simpa using hnot, by simp, fun _ hbody => ?_⟩
        rw [hbody] at hb
        simp [parse_response_vec] at hb
        simp [← hb]
    | ok items0 =>
        refine ⟨by simpa using hnot, by simp, fun _ hbody => ?_⟩
        rw [hbody] at hb
        simp [parse_response_vec] at hb

/-- Witness for C10 at a server advertising `X-Total: 0` with a non-array
body: the multi-page path is taken (0 does not truncate to 1) and the
non-array first body surfaces `ResponseParse`. -/
theorem send_single_path_iff_witness :
    ((send (α := Nat) (fun _ => ⟨200, some 0, none, none⟩)
        RequestPagination.default none).single = true ↔
      ((⟨200, some 0, none, none⟩ : HttpResponse Nat).xTotal = none ∨
        ∃ v, (⟨200, some 0, none, none⟩ : HttpResponse Nat).xTotal = some v ∧ ⌊v⌋ = 1)) ∧
    ((send (α := Nat) (fun _ => ⟨200, some 0, none, none⟩)
        RequestPagination.default none).single = true →
      (send (α := Nat) (fun _ => ⟨200, some 0, none, none⟩)
          RequestPagination.default none).pagination = RequestPagination.default ∧
      (send (α := Nat) (fun _ => ⟨200, some 0, none, none⟩)
          RequestPagination.default none).result
        = parse_response_vec ((⟨200, some 0, none, none⟩ : HttpResponse Nat).body) ∧
      (send (α := Nat) (fun _ => ⟨200, some 0, none, none⟩)
          RequestPagination.default none).dispatches = 1) ∧
    ((send (α := Nat) (fun _ => ⟨200, some 0, none, none⟩)
        RequestPagination.default none).single = false →
      ((⟨200, some 0, none, none⟩ : HttpResponse Nat).body = none →
        (send (α := Nat) (fun _ => ⟨200, some 0, none, none⟩)
            RequestPagination.default none).result = .error ApiError.ResponseParse)) :=
  send_single_path_iff Nat (fun _ => ⟨200, some 0, none, none⟩)
    RequestPagination.default none rfl

/-! ## C6 -/

/-- Peeling the first page off a concatenation of consecutive pages. -/
theorem join_range_succ {α : Type} (f : Nat → List α) (c n : Nat) :
    ((List.range (n + 1)).map (fun i => f (c + i))).flatten
      = f c ++ ((List.range n).map (fun i => f (c + 1 + i))).flatten := by
  rw [List.range_succ_eq_map, List.map_cons, List.flatten_cons, List.map_map]
  have h1 : c + 0 = c := Nat.add_zero c
  rw [h1]
  have h2 : ((fun i => f (c + i)) ∘ Nat.succ) = (fun i => f (c + 1 + i)) := by
    funext i
    show f (c + (i + 1)) = f (c + 1 + i)
    congr 1
    omega
  rw [h2]

/-- Length of a concatenation of `n` consecutive pages of uniform length. -/
theorem join_range_length {α : Type} (f : Nat → List α) (s : Nat)
    (hf : ∀ p, (f p).length = s) (c : Nat) :
    ∀ n, (((List.range n).map (fun i => f (c + i))).flatten).length = n * s := by
  intro n
  induction n with
  | zero => simp
  | succ m ih =>
      rw [List.range_succ, List.map_append, List.flatten_append, List.length_append, ih]
      simp [hf]
      rw [Nat.succ_mul]

/-- When every page dispatch succeeds and every body is an array, the page
loop appends the pages, in ascending page order, advancing the pagination
state once per fetched page. -/
theorem fetch_pages_success {α : Type} (server : Nat → HttpResponse α)
    (fl : Option Nat) (items : Nat → List α)
    (hstatus : ∀ p, isSuccessStatus ((server p).status) = true)
    (hbody : ∀ p, (server p).body = some (items p)) :
    ∀ (fuel : Nat) (a : List α) (pag : RequestPagination),
      fetch_pages server fl fuel (.arr a) pag =
        { result := .ok (.arr (a ++
              ((List.range fuel).map (fun i => items (pag.current_page + i))).flatten)),
          pagination := { pag with current_page := pag.current_page + fuel },
          dispatches := fuel } := by
  intro fuel
  induction fuel with
  | zero =>
      intro a pag
      simp [fetch_pages]
  | succ n ih =>
      intro a pag
      unfold fetch_pages
      rw [execute_reqwest_result, if_pos (hstatus pag.current_page)]
      dsimp only
      rw [hbody pag.current_page]
      dsimp only [parse_response_vec]
      rw [ih (a ++ items pag.current_page) pag.next]
      dsimp only [RequestPagination.next]
      rw [join_range_succ items pag.current_page n, List.append_assoc]
      have harith : pag.current_page + 1 + n = pag.current_page + (n + 1) := by omega
      rw [harith]

/-- C6: under rule `Fixed n` with page size `s` (where `n·s ≥ 2` and `n` is a
`usize`), against a server whose first response advertises `X-Total = T ≥
n·s` and `X-Per-Page = s` with every page body an array of `s` items, `send`
returns the concatenation of pages `1..n` in ascending page order — exactly
`n·s` items — using `n` dispatches and leaving `current_page = n + 1`. -/
theorem send_fixed_rule_full_pages {α : Type} (server : Nat → HttpResponse α)
    (fl : Option Nat) (items : Nat → List α) (n s T : Nat)
    (hns : 2 ≤ n * s) (hn64 : n < 2 ^ 64)
    (hstatus : ∀ p, (server p).status = 200)
    (hbody : ∀ p, (server p).body = some (items p))
    (hlen : ∀ p, (items p).length = s)
    (hT : (server 1).xTotal = some ((T : ℚ)))
    (hps : (server 1).xPerPage = some ((s : ℚ)))
    (hTn : n * s ≤ T) :
    send server ⟨s, 1, PaginationRule.Fixed n⟩ fl =
      { result := .ok (((List.range n).map (fun i => items (1 + i))).flatten),
        dispatches := n,
        pagination := ⟨s, n + 1, PaginationRule.Fixed n⟩,
        single := false } ∧
    (((List.range n).map (fun i => items (1 + i))).flatten).length = n * s := by
  have hs1 : 1 ≤ s := by
    rcases Nat.eq_zero_or_pos s with h | h
    · rw [h, Nat.mul_zero] at hns
      omega
    · exact h
  have hn1 : 1 ≤ n := by
    rcases Nat.eq_zero_or_pos n with h | h
    · rw [h, Nat.zero_mul] at hns
      omega
    · exact h
  have hstat : ∀ p, isSuccessStatus ((server p).status) = true := by
    intro p
    rw [hstatus p]
    rfl
  have hT2 : 2 ≤ T := le_trans hns hTn
  have hne : get_number_of_elements ((server 1).xTotal) ≠ 1 := by
    rw [hT]
    show min (max ⌊((T : ℕ) : ℚ)⌋ 0).toNat (2 ^ 32 - 1) ≠ 1
    rw [Int.floor_natCast]
    omega
  have hpc : get_page_count ((server 1).xTotal) ((server 1).xPerPage)
      (PaginationRule.Fixed n) = n := by
    rw [hT, hps]
    show min (f32CeilToUsize (((T : ℕ) : ℚ) / ((s : ℕ) : ℚ))) n = n
    have hsq : (0 : ℚ) < ((s : ℕ) : ℚ) := by exact_mod_cast hs1
    have hdiv : ((n : ℕ) : ℚ) ≤ ((T : ℕ) : ℚ) / ((s : ℕ) : ℚ) := by
      rw [le_div_iff₀ hsq]
      exact_mod_cast hTn
    have hceil : ((n : ℕ) : ℤ) ≤ ⌈((T : ℕ) : ℚ) / ((s : ℕ) : ℚ)⌉ := by
      have hle := Int.le_ceil (((T : ℕ) : ℚ) / ((s : ℕ) : ℚ))
      have : ((n : ℕ) : ℚ) ≤ ((⌈((T : ℕ) : ℚ) / ((s : ℕ) : ℚ)⌉ : ℤ) : ℚ) :=
        le_trans hdiv hle
      exact_mod_cast this
    unfold f32CeilToUsize
    omega
  have hsend := send_array_path server ⟨s, 1, PaginationRule.Fixed n⟩ fl
    (server 1) (items 1) rfl (hstat 1) hne (hbody 1)
  rw [hsend]
  dsimp only
  rw [hpc, fetch_pages_success server fl items hstat hbody (n - 1) (items 1)]
  dsimp only [RequestPagination.next, json_deserialize]
  have hjoin : ((List.range n).map (fun i => items (1 + i))).flatten
      = items 1 ++ ((List.range (n - 1)).map (fun i => items (2 + i))).flatten := by
    obtain ⟨m, rfl⟩ : ∃ m, n = m + 1 := ⟨n - 1, by omega⟩
    rw [join_range_succ items 1 m]
    simp
  constructor
  · rw [hjoin]
    have h2 : 2 + (n - 1) = n + 1 := by omega
    have h3 : n - 1 + 1 = n := by omega
    rw [h2, h3]
  · rw [hjoin]
    have := join_range_length items s hlen 2 (n - 1)
    rw [List.length_append, hlen 1, this]
    have hm : (n - 1) * s + s = n * s := by
      obtain ⟨m, rfl⟩ : ∃ m, n = m + 1 := ⟨n - 1, by omega⟩
      rw [Nat.succ_mul]
      simp
    omega

/-- Witness for C6: two pages of one item each (`n = 2`, `s = 1`,
`T = 2`). -/
theorem send_fixed_rule_full_pages_witness :
    send (α := Nat)
        (fun p => ⟨200, some ((2 : Nat) : ℚ), some ((1 : Nat) : ℚ), some [p]⟩)
        ⟨1, 1, PaginationRule.Fixed 2⟩ none =
      { result := .ok (((List.range 2).map (fun i => [1 + i])).flatten),
        dispatches := 2,
        pagination := ⟨1, 3, PaginationRule.Fixed 2⟩,
        single := false } ∧
    (((List.range 2).map (fun i => ([1 + i] : List Nat))).flatten).length = 2 * 1 :=
  send_fixed_rule_full_pages
    (fun p => ⟨200, some ((2 : Nat) : ℚ), some ((1 : Nat) : ℚ), some [p]⟩)
    none (fun p => [p]) 2 1 2 (by decide) (by norm_num)
    (fun p => rfl) (fun p => rfl) (fun p => rfl) rfl rfl (by decide)

/-! ## C9 -/

/-- Every period has a positive duration. -/
theorem durationMs_pos (p : TimePeriod) : 0 < p.durationMs := by
  cases p <;> decide

/-- Characterization of a successful acquisition step: invariant fields are
unchanged, and the step either reset the window at `now` (a full period had
elapsed) or consumed a unit of the current window's remaining budget. -/
theorem rl_acquire_char (rl rl1 : RateLimiter) (t : ℤ)
    (h : rl_acquire rl t = some rl1) :
    rl1.limit = rl.limit ∧ rl1.period = rl.period ∧
    ((rl.period.durationMs ≤ t - rl.timer ∧ rl1.timer = t ∧
        rl1.remaining = rl.limit - 1 ∧ 0 < rl.limit) ∨
      (t - rl.timer < rl.period.durationMs ∧ rl1.timer = rl.timer ∧
        rl1.remaining = rl.remaining - 1 ∧ 0 < rl.remaining)) := by
  simp only [rl_acquire] at h
  by_cases hreset : rl.period.durationMs ≤ t - rl.timer
  · rw [if_pos hreset] at h
    by_cases hpos : 0 < rl.limit
    · rw [if_pos hpos] at h
      have heq := Option.some.inj h
      rw [← heq]
      exact ⟨rfl, rfl, Or.inl ⟨hreset, rfl, rfl, hpos⟩⟩
    · rw [if_neg hpos] at h
      exact absurd h (by simp)
  · rw [if_neg hreset] at h
    by_cases hpos : 0 < rl.remaining
    · rw [if_pos hpos] at h
      have heq := Option.some.inj h
      rw [← heq]
      exact ⟨rfl, rfl, Or.inr ⟨lt_of_not_le hreset, rfl, rfl, hpos⟩⟩
    · rw [if_neg hpos] at h
      exact absurd h (by simp)

/-- Splitting a trace. -/
theorem rl_run_append (rl : RateLimiter) (l1 l2 : List ℤ) :
    rl_run rl (l1 ++ l2) =
      match rl_run rl l1 with
      | some rl1 => rl_run rl1 l2
      | none => none := by
  induction l1 generalizing rl with
  | nil => rfl
  | cons t rest ih =>
      rw [List.cons_append, rl_run, rl_run]
      cases hacq : rl_acquire rl t with
      | none => rfl
      | some rl1 => exact ih rl1

/-- Along a trace the limit and period are unchanged, the budget invariant
`remaining ≤ limit` is preserved, and the window start is either the initial
one or one of the acquisition times. -/
theorem rl_run_fields (rl rl' : RateLimiter) (ts : List ℤ)
    (hrun : rl_run rl ts = some rl') (hrem : rl.remaining ≤ rl.limit) :
    rl'.limit = rl.limit ∧ rl'.period = rl.period ∧
    rl'.remaining ≤ rl'.limit ∧ (rl'.timer = rl.timer ∨ rl'.timer ∈ ts) := by
  induction ts generalizing rl with
  | nil =>
      rw [rl_run] at hrun
      have heq := Option.some.inj hrun
      rw [← heq]
      exact ⟨rfl, rfl, hrem, Or.inl rfl⟩
  | cons t rest ih =>
      rw [rl_run] at hrun
      cases hacq : rl_acquire rl t with
      | none => rw [hacq] at hrun; exact absurd hrun (by simp)
      | some rl1 =>
          rw [hacq] at hrun
          obtain ⟨hlim, hper, hcase⟩ := rl_acquire_char rl rl1 t hacq
          have hrem1 : rl1.remaining ≤ rl1.limit := by
            rcases hcase with ⟨-, -, hr, -⟩ | ⟨-, -, hr, -⟩ <;> rw [hr, hlim] <;> omega
          obtain ⟨h1, h2, h3, h4⟩ := ih rl1 hrun hrem1
          refine ⟨by rw [h1, hlim], by rw [h2, hper], h3, ?_⟩
          rcases h4 with h4 | h4
          · rcases hcase with ⟨-, htim, -⟩ | ⟨-, htim, -⟩
            · exact Or.inr (by rw [h4, htim]; exact List.mem_cons_self t rest)
            · exact Or.inl (by rw [h4, htim])
          · exact Or.inr (List.mem_cons_of_mem t h4)

/-- Core counting bound for the fixed-window limiter: from a state with
budget invariant intact, a sorted trace of more than
`remaining + limit · m` acquisitions must contain at least `m + 1` window
resets, hence an acquisition at least `m + 1` periods after the initial
window start. -/
theorem rl_run_reset_bound :
    ∀ (ts : List ℤ) (rl rl' : RateLimiter) (m : Nat),
      rl_run rl ts = some rl' →
      List.Pairwise (fun a b : ℤ => a ≤ b) ts →
      (∀ t ∈ ts, rl.timer ≤ t) →
      rl.remaining ≤ rl.limit →
      rl.remaining + rl.limit * m < ts.length →
      ∃ t ∈ ts, rl.timer + (m + 1 : ℕ) * rl.period.durationMs ≤ t := by
  intro ts
  induction ts with
  | nil =>
      intro rl rl' m _ _ _ _ hlen
      simp at hlen
  | cons t rest ih =>
      intro rl rl' m hrun hp ht hrem hlen
      rw [rl_run] at hrun
      cases hacq : rl_acquire rl t with
      | none => rw [hacq] at hrun; exact absurd hrun (by simp)
      | some rl1 =>
          rw [hacq] at hrun
          obtain ⟨hlim, hper, hcase⟩ := rl_acquire_char rl rl1 t hacq
          obtain ⟨hp1, hp2⟩ := List.pairwise_cons.mp hp
          rw [List.length_cons] at hlen
          rcases hcase with ⟨hres, htim, hrem1, hpos⟩ | ⟨hnores, htim, hrem1, hpos⟩
          · cases m with
            | zero =>
                refine ⟨t, List.mem_cons_self t rest, ?_⟩
                push_cast
                linarith
            | succ m' =>
                have hrem' : rl1.remaining ≤ rl1.limit := by
                  rw [hrem1, hlim]; omega
                have hlen' : rl1.remaining + rl1.limit * m' < rest.length := by
                  rw [hrem1, hlim]
                  have hexp : rl.limit * (m' + 1) = rl.limit * m' + rl.limit :=
                    Nat.mul_succ rl.limit m'
                  rw [hexp] at hlen
                  generalize rl.limit * m' = K at hlen ⊢
                  omega
                have ht' : ∀ u ∈ rest, rl1.timer ≤ u := by
                  intro u hu
                  rw [htim]
                  exact hp1 u hu
                obtain ⟨u, hu, hbound⟩ := ih rl1 rl' m' hrun hp2 ht' hrem' hlen'
                refine ⟨u, List.mem_cons_of_mem t hu, ?_⟩
                rw [hper, htim] at hbound
                have hring : ((m' + 1 + 1 : ℕ) : ℤ) * rl.period.durationMs
                    = ((m' + 1 : ℕ) : ℤ) * rl.period.durationMs
                      + rl.period.durationMs := by
                  push_cast
                  ring
                rw [hring]
                linarith
          · have hrem' : rl1.remaining ≤ rl1.limit := by
              rw [hrem1, hlim]; omega
            have hlen' : rl1.remaining + rl1.limit * m < rest.length := by
              rw [hrem1, hlim]
              generalize rl.limit * m = K at hlen ⊢
              omega
            have ht' : ∀ u ∈ rest, rl1.timer ≤ u := by
              intro u hu
              rw [htim]
              exact ht u (List.mem_cons_of_mem t hu)
            obtain ⟨u, hu, hbound⟩ := ih rl1 rl' m hrun hp2 ht' hrem' hlen'
            refine ⟨u, List.mem_cons_of_mem t hu, ?_⟩
            rw [hper, htim] at hbound
            exact hbound

/-- C9 counterexample: limit 1 per second, window started at `t = 0` ms:
acquisitions complete at 900 ms and 1050 ms — the second lands in a fresh
fixed window — so two acquisitions (N = 2 > limit) are only 150 ms apart,
violating both the rolling-window bound and the claimed elapsed-time bound
`ceil(N/limit − 1) · period = 1000 ms`.  (This trace is realizable: the
second caller arrives after the first window has expired and is admitted
immediately.) -/
theorem rate_limiter_rolling_window_violated :
    (rl_run ⟨1, 1, .Second, false, true, 0⟩ [900, 1050]).isSome = true ∧
    (1 : Nat) < [(900 : ℤ), 1050].length ∧
    (1050 : ℤ) - 900 < 1 * TimePeriod.durationMs .Second := by
  refine ⟨rfl, by decide, by decide⟩

/-- C9 amended: the limiter is a fixed-window limiter, so the rolling-window
bound holds with budget `2·limit` instead of `limit`: in any valid sorted
trace of acquisition completions, two acquisitions at least `2·limit` apart
in sequence are strictly more than one period apart in time — equivalently,
any half-open time window of one period length contains at most `2·limit`
completions. -/
theorem rate_limiter_window_spacing (rl rl' : RateLimiter) (ts : List ℤ)
    (i j : Nat) (hi : i < ts.length) (hj : j < ts.length)
    (hrun : rl_run rl ts = some rl')
    (hsorted : List.Pairwise (fun a b : ℤ => a ≤ b) ts)
    (htimer : ∀ t ∈ ts, rl.timer ≤ t)
    (hrem : rl.remaining ≤ rl.limit)
    (hij : i + 2 * rl.limit ≤ j) :
    rl.period.durationMs < ts[j] - ts[i] := by
  have hP : 0 < rl.period.durationMs := durationMs_pos rl.period
  -- state after the first i acquisitions
  have happ := rl_run_append rl (ts.take i) (ts.drop i)
  rw [List.take_append_drop, hrun] at happ
  cases hsi : rl_run rl (ts.take i) with
  | none => rw [hsi] at happ; exact absurd happ (by simp)
  | some si =>
      rw [hsi] at happ
      have hdrop : rl_run si (ts.drop i) = some rl' := happ.symm
      obtain ⟨hsl, hsp, hsrem, hstim⟩ := rl_run_fields rl si (ts.take i) hsi hrem
      -- the i-th acquisition
      have hdropeq : ts.drop i = ts[i] :: ts.drop (i + 1) :=
        List.drop_eq_getElem_cons hi
      rw [hdropeq, rl_run] at hdrop
      cases hacq : rl_acquire si ts[i] with
      | none => rw [hacq] at hdrop; exact absurd hdrop (by simp)
      | some si' =>
          rw [hacq] at hdrop
          have hdrop2 : rl_run si' (ts.drop (i + 1)) = some rl' := hdrop
          obtain ⟨hl1, hq1, hcase⟩ := rl_acquire_char si si' ts[i] hacq
          -- the window start of si lies below everything from index i on
          have hts_pair : List.Pairwise (fun a b : ℤ => a ≤ b)
              (ts.take i ++ ts.drop i) := by
            rw [List.take_append_drop]
            exact hsorted
          have hsit : ∀ u ∈ ts.drop i, si.timer ≤ u := by
            intro u hu
            rcases hstim with h | h
            · rw [h]
              exact htimer u ((List.drop_sublist i ts).subset hu)
            · exact (List.pairwise_append.mp hts_pair).2.2 si.timer h u hu
          have hpos : 0 < si.limit := by
            rcases hcase with ⟨-, -, -, h⟩ | ⟨-, -, -, h⟩
            · exact h
            · omega
          have hlimpos : 0 < rl.limit := by rw [← hsl]; exact hpos
          have hij' : i < j := by omega
          have hrem' : si'.remaining + 1 ≤ si.limit := by
            rcases hcase with ⟨-, -, hr, -⟩ | ⟨-, -, hr, hp0⟩ <;> rw [hr] <;> omega
          have hti : ts[i] < si'.timer + rl.period.durationMs := by
            rcases hcase with ⟨-, htim, -⟩ | ⟨hn, htim, -⟩
            · rw [htim]; omega
            · rw [htim]
              rw [hsp] at hn
              have := hsit ts[i] (by rw [hdropeq]; exact List.mem_cons_self _ _)
              omega
          -- the segment of acquisitions i+1 .. j
          have hdecomp : ts.drop (i + 1)
              = (ts.drop (i + 1)).take (j - i) ++ (ts.drop (i + 1)).drop (j - i) :=
            (List.take_append_drop _ _).symm
          have happ2 := rl_run_append si' ((ts.drop (i + 1)).take (j - i))
            ((ts.drop (i + 1)).drop (j - i))
          rw [← hdecomp, hdrop2] at happ2
          cases hs2 : rl_run si' ((ts.drop (i + 1)).take (j - i)) with
          | none => rw [hs2] at happ2; exact absurd happ2 (by simp)
          | some s2 =>
              have hseg_len : ((ts.drop (i + 1)).take (j - i)).length = j - i := by
                rw [List.length_take, List.length_drop]
                omega
              have hpair_seg : List.Pairwise (fun a b : ℤ => a ≤ b)
                  ((ts.drop (i + 1)).take (j - i)) :=
                hsorted.sublist ((List.take_sublist _ _).trans (List.drop_sublist _ _))
              have hpair_dropi : List.Pairwise (fun a b : ℤ => a ≤ b) (ts.drop i) :=
                hsorted.sublist (List.drop_sublist _ _)
              have hhead : ∀ u ∈ ts.drop (i + 1), ts[i] ≤ u := by
                rw [hdropeq] at hpair_dropi
                exact (List.pairwise_cons.mp hpair_dropi).1
              have htimer_seg : ∀ u ∈ (ts.drop (i + 1)).take (j - i),
                  si'.timer ≤ u := by
                intro u hu
                have humem : u ∈ ts.drop (i + 1) := List.take_subset _ _ hu
                rcases hcase with ⟨-, htim, -⟩ | ⟨-, htim, -⟩
                · rw [htim]
                  exact hhead u humem
                · rw [htim]
                  exact hsit u (by rw [hdropeq]; exact List.mem_cons_of_mem _ humem)
              have hrem_seg : si'.remaining ≤ si'.limit := by
                rw [hl1]
                omega
              have hcount : si'.remaining + si'.limit * 1
                  < ((ts.drop (i + 1)).take (j - i)).length := by
                rw [hseg_len, hl1, Nat.mul_one]
                omega
              obtain ⟨u, hu, hbound⟩ := rl_run_reset_bound
                ((ts.drop (i + 1)).take (j - i)) si' s2 1 hs2 hpair_seg
                htimer_seg hrem_seg hcount
              rw [hq1, hsp] at hbound
              -- u is one of ts[i+1..j], hence at most ts[j]
              have hju : u ≤ ts[j] := by
                obtain ⟨k, hk, huk⟩ := List.getElem_of_mem hu
                rw [hseg_len] at hk
                have hk2 : k < (ts.drop (i + 1)).length := by
                  rw [List.length_drop]
                  omega
                have he1 : ((ts.drop (i + 1)).take (j - i))[k] = (ts.drop (i + 1))[k] :=
                  List.getElem_take _
                have he2 : (ts.drop (i + 1))[k] = ts[i + 1 + k] :=
                  List.getElem_drop _
                rcases Nat.lt_or_ge (i + 1 + k) j with hlt | hge
                · have := List.pairwise_iff_getElem.mp hsorted (i + 1 + k) j
                    (by omega) hj hlt
                  rw [← huk, he1, he2]
                  exact this
                · have heq : ts[i + 1 + k] = ts[j] := by
                    congr 1
                    omega
                  rw [← huk, he1, he2]
                  exact le_of_eq heq
  -- chain the bounds
              have hexp : ((1 + 1 : ℕ) : ℤ) * rl.period.durationMs
                  = rl.period.durationMs + rl.period.durationMs := by
                push_cast
                ring
              rw [hexp] at hbound
              omega

/-- Witness for the C9 amended theorem: limit 1 per second, completions at
0, 1000 and 2000 ms; the acquisitions two apart are 2000 ms > one period
apart. -/
theorem rate_limiter_window_spacing_witness :
    TimePeriod.durationMs .Second <
      ([(0 : ℤ), 1000, 2000])[2] - ([(0 : ℤ), 1000, 2000])[0] :=
  rate_limiter_window_spacing ⟨1, 1, .Second, false, true, 0⟩
    ⟨1, 0, .Second, false, true, 2000⟩ [0, 1000, 2000] 0 2
    (by decide) (by decide) (by decide) (by decide) (by decide)
    (by decide) (by decide)

end Reqt
